import Mathlib

/-!
Shallow embedding of the query-state synchronizer library
(sources: src/useQueryState.ts and src/useQueryStates.ts).

Dictionaries (the raw query object, the typed values object, the
serialized patch object) are JavaScript objects; we model them as
association lists with unique-key assignment semantics.  Because the
code is dynamically typed (and in one place applies a serializer to a
whole object), values are modelled by a single dynamic type `JSVal`
with an explicit `undef` constructor standing for `undefined`.
-/

inductive JSVal where
  | undef : JSVal
  | null : JSVal
  | str : String → JSVal
  | num : Int → JSVal
  | arr : List String → JSVal
  | obj : List (String × JSVal) → JSVal

/-- Models the JavaScript test `x === undefined`. -/
def JSVal.isUndef : JSVal → Bool
  | JSVal.undef => true
  | _ => false

/-- A JavaScript object holding query-string values: `Record<string, NextQueryValue>`. -/
abbrev RawDict := List (String × JSVal)

/-- Property lookup on a JavaScript object: `some v` when the property is
present (even with value `undefined`), `none` when absent. -/
def getEntry {α : Type} : List (String × α) → String → Option α
  | [], _ => none
  | (k', v) :: rest, k => if k' = k then some v else getEntry rest k

/-- Models `obj[k]` in JavaScript: an absent property reads as `undefined`. -/
def getKey (d : RawDict) (k : String) : JSVal :=
  (getEntry d k).getD JSVal.undef

/-- Models the JavaScript `k in obj` test. -/
def containsKey {α : Type} (d : List (String × α)) (k : String) : Bool :=
  (getEntry d k).isSome

/-- Models JavaScript property assignment `obj[k] = v` (and equally
`\x7b ...obj, [k]: v \x7d`): an existing property keeps its position and gets the
new value, a fresh property is appended at the end. -/
def setKey {α : Type} : List (String × α) → String → α → List (String × α)
  | [], k, v => [(k, v)]
  | (k', v') :: rest, k, v =>
      if k' = k then (k, v) :: rest else (k', v') :: setKey rest k v

/-- Models the JavaScript object spread `\x7b ...a, ...b \x7d`: the entries of `b`
are assigned into a copy of `a`, one after the other. -/
def spread {α : Type} (a b : List (String × α)) : List (String × α) :=
  b.foldl (fun acc kv => setKey acc kv.1 kv.2) a

/-- HistoryOptions from defs: the string union of push and replace. -/
inductive HistoryOptions where
  | push : HistoryOptions
  | replace : HistoryOptions
deriving DecidableEq

/-- The per-call options object of a setter: `\x7b history?: HistoryOptions \x7d`. -/
structure SetQueryStateOptions where
  history : Option HistoryOptions

/-- The query patch handed to the batch router: either an object carrying
serialized values (possibly `undefined` ones) or a function from the
previous raw query dictionary to the next one. -/
inductive QueryUpdater where
  | obj : List (String × JSVal) → QueryUpdater
  | func : (RawDict → RawDict) → QueryUpdater

/-- One invocation of the navigation batching service: which method was
called (`push` or `replace`), the `\x7b query \x7d` argument, the second argument
(always `undefined` in the source), and the forwarded transition options. -/
structure NavCall where
  method : HistoryOptions
  query : QueryUpdater
  asPath : JSVal
  transitionOpts : JSVal

/-- Modelled from the spec: `defaultSerializer` lives in src/utils.ts, which is
not part of the given sources.  The spec describes it as a type-preserving
identity mapping from `string | string[] | null` to the same. -/
def defaultSerializer : JSVal → JSVal := fun x => x

/-- The inline default parse of `useQueryState`:
`parse = (x) => (x === undefined ? null : x)`. -/
def defaultParse : JSVal → JSVal :=
  fun x => if x.isUndef then JSVal.null else x

/-- The `stateUpdater` argument of the single-key setter: a direct value or an
updater function, discriminated by `typeof input === "function"`. -/
inductive StateUpdater where
  | value : JSVal → StateUpdater
  | func : (JSVal → JSVal) → StateUpdater

/-- The `queryUpdater` computed by the single-key `update` in useQueryState.ts:
for an updater function, a patch function that re-parses the previous value
from the dictionary it is applied to, serializes the updated value, and
keeps the previous dictionary when the serialized value is `undefined`;
for a direct value, the object `\x7b [key]: serialize(stateUpdater) \x7d`. -/
def singleQueryUpdater (key : String) (parse serialize : JSVal → JSVal) :
    StateUpdater → QueryUpdater
  | StateUpdater.func f =>
      QueryUpdater.func (fun prevObj =>
        let newVal := serialize (f (parse (getKey prevObj key)))
        if newVal.isUndef then prevObj else setKey prevObj key newVal)
  | StateUpdater.value v => QueryUpdater.obj [(key, serialize v)]

/-- The single-key `update` callback.  `hookHistory` is the history option the
hook was created with (`none` when not configured; the destructuring default
is `replace`).  The returned list records the calls made to the batch
router; the source makes exactly one `push` or `replace` call. -/
def useQueryStateUpdate (key : String) (hookHistory : Option HistoryOptions)
    (parse serialize : JSVal → JSVal) (stateUpdater : StateUpdater)
    (options : Option SetQueryStateOptions) (transitionOptions : JSVal) :
    List NavCall :=
  let history := hookHistory.getD HistoryOptions.replace
  let queryUpdater := singleQueryUpdater key parse serialize stateUpdater
  let historyMode := (options.bind SetQueryStateOptions.history).getD history
  if historyMode = HistoryOptions.push then
    [{ method := HistoryOptions.push, query := queryUpdater,
       asPath := JSVal.undef, transitionOpts := transitionOptions }]
  else
    [{ method := HistoryOptions.replace, query := queryUpdater,
       asPath := JSVal.undef, transitionOpts := transitionOptions }]

/-- The value returned by the single-key hook: `parse(router.query[key])`,
with the inline default parse when none is declared. -/
def useQueryStateValue (key : String) (parseOpt : Option (JSVal → JSVal))
    (query : RawDict) : JSVal :=
  (parseOpt.getD defaultParse) (getKey query key)

/-- One entry of the multi-key KeyMap: `Serializers<T>` with a parse function
and an optional serialize function (the code falls back to
`defaultSerializer` when `serialize` is not supplied). -/
structure SerializerEntry where
  parse : JSVal → JSVal
  serialize : Option (JSVal → JSVal)

/-- The KeyMap of the multi-key hook, in `Object.entries` iteration order. -/
abbrev KeyMap := List (String × SerializerEntry)

/-- parseObject from useQueryStates.ts: builds the values object by assigning
`values[k] = v.parse(query[k])` for each KeyMap entry. -/
def parseObject (query : RawDict) (keys : KeyMap) : List (String × JSVal) :=
  keys.foldl (fun values kv => setKey values kv.1 (kv.2.parse (getKey query kv.1))) []

/-- The loop body of serializeAndRemoveUndefined, one iteration of
`for (const [k, v] of Object.entries(keys))`: when `k in vals`, it computes
`(v.serialize || defaultSerializer)(vals)` — note the argument is the whole
`vals` object, exactly as in the source — and assigns the result under `k`
when it is not `undefined`. -/
def serializeStep (vals : List (String × JSVal))
    (serialized : List (String × JSVal)) (kv : String × SerializerEntry) :
    List (String × JSVal) :=
  if containsKey vals kv.1 then
    let serializedVal := (kv.2.serialize.getD defaultSerializer) (JSVal.obj vals)
    if serializedVal.isUndef then serialized
    else setKey serialized kv.1 serializedVal
  else serialized

/-- serializeAndRemoveUndefined from useQueryStates.ts: folds `serializeStep`
over the KeyMap entries starting from the empty object. -/
def serializeAndRemoveUndefined (vals : List (String × JSVal)) (keys : KeyMap) :
    List (String × JSVal) :=
  keys.foldl (serializeStep vals) []

/-- The `stateUpdater` argument of the multi-key setter: a direct
partial-values object or an updater function. -/
inductive StatesUpdater where
  | value : List (String × JSVal) → StatesUpdater
  | func : (List (String × JSVal) → List (String × JSVal)) → StatesUpdater

/-- The `queryUpdater` computed by the multi-key `update` in useQueryStates.ts:
for an updater function, a patch function that parses all KeyMap keys from
the dictionary it is applied to, applies the updater, and spread-merges the
serialized result over that dictionary; for a direct partial object, the
serialized object itself. -/
def statesQueryUpdater (keys : KeyMap) : StatesUpdater → QueryUpdater
  | StatesUpdater.func f =>
      QueryUpdater.func (fun prevObj =>
        let prev := parseObject prevObj keys
        let updated := f prev
        spread prevObj (serializeAndRemoveUndefined updated keys))
  | StatesUpdater.value v => QueryUpdater.obj (serializeAndRemoveUndefined v keys)

/-- The multi-key `update` function, recording the batch-router calls. -/
def useQueryStatesUpdate (keys : KeyMap) (hookHistory : Option HistoryOptions)
    (stateUpdater : StatesUpdater) (options : Option SetQueryStateOptions)
    (transitionOptions : JSVal) : List NavCall :=
  let history := hookHistory.getD HistoryOptions.replace
  let queryUpdater := statesQueryUpdater keys stateUpdater
  let historyMode := (options.bind SetQueryStateOptions.history).getD history
  if historyMode = HistoryOptions.push then
    [{ method := HistoryOptions.push, query := queryUpdater,
       asPath := JSVal.undef, transitionOpts := transitionOptions }]
  else
    [{ method := HistoryOptions.replace, query := queryUpdater,
       asPath := JSVal.undef, transitionOpts := transitionOptions }]

/-- How the navigation service consumes a function-shaped patch: it applies it
to the current raw query dictionary to obtain the complete next query.  An
object-shaped patch is not applied this way (the service merges it itself),
so that branch is a no-op here. -/
def applyPatch : QueryUpdater → RawDict → RawDict
  | QueryUpdater.obj _, d => d
  | QueryUpdater.func f, d => f d

/-- The value of a decimal digit character, `none` for any other character. -/
def digitVal (c : Char) : Option Nat :=
  if ('0' ≤ c ∧ c ≤ '9') then some (c.toNat - ('0').toNat) else none

/-- Reads a run of decimal digits, accumulating their value. -/
def readNat : List Char → Nat → Option Nat
  | [], acc => some acc
  | c :: cs, acc =>
      match digitVal c with
      | some d => readNat cs (acc * 10 + d)
      | none => none

/-- An example serializer pair mirroring the integer shorthand used by the
tests and the spec examples: parse reads a decimal string, serialize prints
the number (anything else serializes to `undefined`). -/
def intParse : JSVal → JSVal
  | JSVal.str s =>
      match s.data with
      | [] => JSVal.null
      | cs =>
          match readNat cs 0 with
          | some n => JSVal.num (Int.ofNat n)
          | none => JSVal.null
  | _ => JSVal.null

/-- Example integer serialize function (see `intParse`). -/
def intSerialize : JSVal → JSVal
  | JSVal.num n => JSVal.str (toString n)
  | _ => JSVal.undef

/-- The updater function of the spec example: `v => v + 1` on parsed integers. -/
def incInt : JSVal → JSVal
  | JSVal.num n => JSVal.num (n + 1)
  | v => v

/-- Example KeyMap entry with the integer serializer pair supplied. -/
def intEntry : SerializerEntry :=
  { parse := intParse, serialize := some intSerialize }

example : intParse (JSVal.str "123") = JSVal.num 123 := rfl

example : intSerialize (JSVal.num 124) = JSVal.str "124" := rfl


/-! ### Dictionary lemmas -/

/-- The keys of an association-list object, in order. -/
def keysOf {α : Type} (d : List (String × α)) : List String := d.map Prod.fst

/-- A well-formed JavaScript object: no duplicate property names. -/
def NodupKeys {α : Type} (d : List (String × α)) : Prop := (keysOf d).Nodup

theorem getEntry_setKey_self {α : Type} (d : List (String × α)) (k : String) (v : α) :
    getEntry (setKey d k v) k = some v := by
  induction d with
  | nil => simp [setKey, getEntry]
  | cons hd tl ih =>
      obtain ⟨k', v'⟩ := hd
      by_cases h : k' = k
      · subst h; simp [setKey, getEntry]
      · simp [setKey, h, getEntry, ih]

theorem getEntry_setKey_ne {α : Type} (d : List (String × α)) (k0 k : String) (v : α)
    (h : k0 ≠ k) : getEntry (setKey d k0 v) k = getEntry d k := by
  induction d with
  | nil => simp [setKey, getEntry, h]
  | cons hd tl ih =>
      obtain ⟨k', v'⟩ := hd
      by_cases h' : k' = k0
      · subst h'; simp [setKey, getEntry, h]
      · simp [setKey, h', getEntry, ih]

theorem getKey_setKey_self (d : RawDict) (k : String) (v : JSVal) :
    getKey (setKey d k v) k = v := by
  simp [getKey, getEntry_setKey_self]

theorem getKey_setKey_ne (d : RawDict) (k0 k : String) (v : JSVal) (h : k0 ≠ k) :
    getKey (setKey d k0 v) k = getKey d k := by
  simp [getKey, getEntry_setKey_ne d k0 k v h]

theorem getEntry_eq_none_iff {α : Type} (d : List (String × α)) (k : String) :
    getEntry d k = none ↔ k ∉ keysOf d := by
  induction d with
  | nil => simp [getEntry, keysOf]
  | cons hd tl ih =>
      obtain ⟨k', v'⟩ := hd
      by_cases h : k' = k
      · subst h; simp [getEntry, keysOf]
      · simp [getEntry, h, keysOf] at ih ⊢
        rw [ih]
        constructor
        · intro hk; exact ⟨fun he => h he.symm, hk⟩
        · intro hk; exact hk.2

theorem mem_keysOf_setKey {α : Type} (d : List (String × α)) (k x : String) (v : α) :
    x ∈ keysOf (setKey d k v) ↔ x = k ∨ x ∈ keysOf d := by
  induction d with
  | nil => simp [setKey, keysOf]
  | cons hd tl ih =>
      obtain ⟨k', v'⟩ := hd
      by_cases h : k' = k
      · subst h; simp [setKey, keysOf]
      · simp [setKey, h, keysOf] at ih ⊢
        rw [ih]; tauto

theorem nodupKeys_setKey {α : Type} (d : List (String × α)) (k : String) (v : α)
    (h : NodupKeys d) : NodupKeys (setKey d k v) := by
  induction d with
  | nil => simp [setKey, NodupKeys, keysOf]
  | cons hd tl ih =>
      obtain ⟨k', v'⟩ := hd
      simp only [NodupKeys, keysOf, List.map_cons, List.nodup_cons] at h
      obtain ⟨hk', htl⟩ := h
      have hk'' : k' ∉ keysOf tl := hk'
      by_cases hkk : k' = k
      · subst hkk
        have hstep : setKey ((k', v') :: tl) k' v = (k', v) :: tl := by
          simp [setKey]
        rw [hstep]
        exact List.nodup_cons.mpr ⟨hk'', htl⟩
      · have ihtl := ih htl
        have hstep : setKey ((k', v') :: tl) k v = (k', v') :: setKey tl k v := by
          simp [setKey, hkk]
        rw [hstep]
        refine List.nodup_cons.mpr ⟨?_, ihtl⟩
        intro hmem
        rcases (mem_keysOf_setKey tl k k' v).mp hmem with h1 | h1
        · exact hkk h1
        · exact hk'' h1

theorem getKey_spread (a b : RawDict) (hb : NodupKeys b) (k : String) :
    getKey (spread a b) k = (getEntry b k).getD (getKey a k) := by
  induction b generalizing a with
  | nil => simp [spread, getEntry]
  | cons kv rest ih =>
      obtain ⟨k0, v0⟩ := kv
      simp [NodupKeys, keysOf, List.nodup_cons] at hb
      obtain ⟨hk0, hrest⟩ := hb
      have hstep : spread a ((k0, v0) :: rest) = spread (setKey a k0 v0) rest := rfl
      rw [hstep, ih (setKey a k0 v0) hrest]
      by_cases h : k0 = k
      · subst h
        have hnone : getEntry rest k0 = none :=
          (getEntry_eq_none_iff rest k0).mpr (by simpa [keysOf] using hk0)
        simp [hnone, getEntry, getKey_setKey_self]
      · simp [getEntry, h]
        cases hres : getEntry rest k with
        | none => simp [getKey_setKey_ne a k0 k v0 h]
        | some w => simp

/-! ### Lemmas about the serialization fold -/

theorem nodupKeys_foldl_serializeStep (vals : List (String × JSVal)) (keys : KeyMap)
    (acc : List (String × JSVal)) (h : NodupKeys acc) :
    NodupKeys (keys.foldl (serializeStep vals) acc) := by
  induction keys generalizing acc with
  | nil => exact h
  | cons kv rest ih =>
      apply ih
      simp only [serializeStep]
      split
      · split
        · exact h
        · exact nodupKeys_setKey _ _ _ h
      · exact h

theorem nodupKeys_serializeAndRemoveUndefined (vals : List (String × JSVal))
    (keys : KeyMap) : NodupKeys (serializeAndRemoveUndefined vals keys) :=
  nodupKeys_foldl_serializeStep vals keys [] (by simp [NodupKeys, keysOf])

theorem ne_of_not_containsKey {α : Type} (keys : List (String × α)) (k : String)
    (h : containsKey keys k = false) : ∀ kv ∈ keys, kv.1 ≠ k := by
  intro kv hmem he
  have hnone : getEntry keys k = none := by
    cases hg : getEntry keys k with
    | none => rfl
    | some w => simp [containsKey, hg] at h
  have hk : k ∉ keysOf keys := (getEntry_eq_none_iff keys k).mp hnone
  subst he
  exact hk (List.mem_map.mpr ⟨kv, hmem, rfl⟩)

theorem getEntry_foldl_serializeStep_none (vals : List (String × JSVal))
    (keys : KeyMap) (k : String) (hk : ∀ kv ∈ keys, kv.1 ≠ k) :
    ∀ acc, getEntry acc k = none →
      getEntry (keys.foldl (serializeStep vals) acc) k = none := by
  induction keys with
  | nil => intro acc hacc; exact hacc
  | cons kv rest ih =>
      intro acc hacc
      have hk0 : kv.1 ≠ k := hk kv (by simp)
      have hstep : getEntry (serializeStep vals acc kv) k = none := by
        simp only [serializeStep]
        split
        · split
          · exact hacc
          · rw [getEntry_setKey_ne acc kv.1 k _ hk0]; exact hacc
        · exact hacc
      exact ih (fun kv' hmem => hk kv' (by simp [hmem])) (serializeStep vals acc kv) hstep

theorem getEntry_serializeAndRemoveUndefined_none (vals : List (String × JSVal))
    (keys : KeyMap) (k : String) (h : containsKey keys k = false) :
    getEntry (serializeAndRemoveUndefined vals keys) k = none :=
  getEntry_foldl_serializeStep_none vals keys k (ne_of_not_containsKey keys k h) [] rfl

/-! ### Claim theorems -/

/-- C1: the claim says every multi-key setter invocation serializes each present
key by applying that key's own serializer to that key's updated value.  The
code instead passes the whole `vals` object to the serializer
(`(v.serialize || defaultSerializer)(vals)`), so with KeyMap
`[("a", intEntry)]` and update `[("a", num 5)]` the integer serializer
receives an object, returns `undefined`, and key `a` is dropped from the
patch — even though applying the serializer to the key's own updated value
`5` yields the defined string `"5"` (the patch the claim prescribes is
`[("a", str "5")]`). -/
theorem serializeAndRemoveUndefined_bug_eval :
    serializeAndRemoveUndefined [("a", JSVal.num 5)] [("a", intEntry)] = []
    ∧ intSerialize (JSVal.num 5) = JSVal.str "5" :=
  ⟨rfl, rfl⟩

/-- C2: for every single-key functional update whose updater result serializes
to undefined, the produced patch function applied to any raw query dictionary
returns that dictionary unchanged: the previous raw value of the key is
preserved, not cleared. -/
theorem single_functional_update_preserves_on_undefined
    (key : String) (parse serialize f : JSVal → JSVal) (prevObj : RawDict)
    (h : serialize (f (parse (getKey prevObj key))) = JSVal.undef) :
    applyPatch (singleQueryUpdater key parse serialize (StateUpdater.func f)) prevObj
      = prevObj := by
  simp [applyPatch, singleQueryUpdater, h, JSVal.isUndef]

/-- Witness for C2 at the spec example: raw value "123", serialization
undefined, the dictionary comes back unchanged. -/
theorem single_functional_update_preserves_on_undefined_witness :
    applyPatch (singleQueryUpdater "val" defaultParse (fun _ => JSVal.undef)
      (StateUpdater.func (fun v => v))) [("val", JSVal.str "123")]
      = [("val", JSVal.str "123")] :=
  single_functional_update_preserves_on_undefined "val" defaultParse
    (fun _ => JSVal.undef) (fun v => v) [("val", JSVal.str "123")] rfl

/-- C3: a single-key functional update patch parses the previous typed value
from the raw dictionary it is applied to, at patch-application time.  Hence
for two sequential functional updates, the first writes the serialization of
`f1` of the originally parsed value, and the second — applied to the output
of the first — observes `f1` of that value as its previous value and writes
the serialization of `f2 (f1 ...)`. -/
theorem single_functional_updates_sequential_freshness
    (key : String) (parse serialize f1 f2 : JSVal → JSVal) (d : RawDict)
    (h1 : (serialize (f1 (parse (getKey d key)))).isUndef = false)
    (hrt : parse (serialize (f1 (parse (getKey d key)))) = f1 (parse (getKey d key)))
    (h2 : (serialize (f2 (f1 (parse (getKey d key))))).isUndef = false) :
    applyPatch (singleQueryUpdater key parse serialize (StateUpdater.func f1)) d
      = setKey d key (serialize (f1 (parse (getKey d key))))
    ∧ applyPatch (singleQueryUpdater key parse serialize (StateUpdater.func f2))
        (applyPatch (singleQueryUpdater key parse serialize (StateUpdater.func f1)) d)
      = setKey (setKey d key (serialize (f1 (parse (getKey d key))))) key
          (serialize (f2 (f1 (parse (getKey d key))))) := by
  have hp1 : applyPatch (singleQueryUpdater key parse serialize (StateUpdater.func f1)) d
      = setKey d key (serialize (f1 (parse (getKey d key)))) := by
    simp [applyPatch, singleQueryUpdater, h1]
  refine ⟨hp1, ?_⟩
  rw [hp1]
  have hgk : getKey (setKey d key (serialize (f1 (parse (getKey d key))))) key
      = serialize (f1 (parse (getKey d key))) := getKey_setKey_self d key _
  simp [applyPatch, singleQueryUpdater, hgk, hrt, h2]

/-- Witness for C3 at the spec example: from raw value "123" with the integer
updater `v => v + 1` applied twice, the first patch yields "124" and the
second patch, applied to that result, yields "125". -/
theorem single_functional_updates_sequential_freshness_witness :
    applyPatch (singleQueryUpdater "val" intParse intSerialize (StateUpdater.func incInt))
        [("val", JSVal.str "123")] = [("val", JSVal.str "124")]
    ∧ applyPatch (singleQueryUpdater "val" intParse intSerialize (StateUpdater.func incInt))
        (applyPatch (singleQueryUpdater "val" intParse intSerialize
          (StateUpdater.func incInt)) [("val", JSVal.str "123")])
      = [("val", JSVal.str "125")] := by
  have h := single_functional_updates_sequential_freshness "val" intParse intSerialize
    incInt incInt [("val", JSVal.str "123")] rfl rfl rfl
  exact ⟨h.1.trans rfl, h.2.trans rfl⟩

/-- C4: a multi-key functional update patch returns the input dictionary
spread-merged with the serialized partial: every key of the serialized
partial takes its new value, and every other key keeps its previous raw
value from the input dictionary. -/
theorem multi_functional_update_spread_merge (keys : KeyMap)
    (u : List (String × JSVal) → List (String × JSVal)) (d : RawDict) :
    applyPatch (statesQueryUpdater keys (StatesUpdater.func u)) d
      = spread d (serializeAndRemoveUndefined (u (parseObject d keys)) keys)
    ∧ ∀ k : String,
        getKey (applyPatch (statesQueryUpdater keys (StatesUpdater.func u)) d) k
          = (getEntry (serializeAndRemoveUndefined (u (parseObject d keys)) keys) k).getD
              (getKey d k) := by
  have hp : applyPatch (statesQueryUpdater keys (StatesUpdater.func u)) d
      = spread d (serializeAndRemoveUndefined (u (parseObject d keys)) keys) := rfl
  refine ⟨hp, fun k => ?_⟩
  rw [hp]
  exact getKey_spread d _ (nodupKeys_serializeAndRemoveUndefined _ keys) k

/-- C5: a setter invocation (single-key or multi-key) with no per-call options
and no hook-level history configured calls the navigation service's replace
operation, never push. -/
theorem setter_defaults_to_replace (key : String) (parse serialize : JSVal → JSVal)
    (u : StateUpdater) (keys : KeyMap) (us : StatesUpdater) (t : JSVal) :
    (useQueryStateUpdate key none parse serialize u none t).map NavCall.method
      = [HistoryOptions.replace]
    ∧ (useQueryStatesUpdate keys none us none t).map NavCall.method
      = [HistoryOptions.replace] :=
  ⟨rfl, rfl⟩

/-- C6: the history mode is resolved with precedence per-call option over
hook-configured default over the global default replace: a supplied per-call
history decides push vs replace regardless of the hook default, and with no
per-call option the hook-configured default decides. -/
theorem history_resolution_precedence (key : String) (parse serialize : JSVal → JSVal)
    (u : StateUpdater) (keys : KeyMap) (us : StatesUpdater)
    (hookH : Option HistoryOptions) (h h2 : HistoryOptions) (t : JSVal) :
    ((useQueryStateUpdate key hookH parse serialize u (some ⟨some h⟩) t).map NavCall.method
      = [h])
    ∧ ((useQueryStatesUpdate keys hookH us (some ⟨some h⟩) t).map NavCall.method = [h])
    ∧ ((useQueryStateUpdate key (some h2) parse serialize u none t).map NavCall.method
      = [h2])
    ∧ ((useQueryStatesUpdate keys (some h2) us none t).map NavCall.method = [h2]) := by
  refine ⟨?_, ?_, ?_, ?_⟩
  · cases h <;> rfl
  · cases h <;> rfl
  · cases h2 <;> rfl
  · cases h2 <;> rfl

/-- C7: with no parse function declared, the single-key hook's default parse
maps an absent (undefined) raw value to null and maps any present raw value
(string or string array) to itself. -/
theorem default_parse_behavior :
    (∀ (key : String) (q : RawDict),
        useQueryStateValue key none q = defaultParse (getKey q key))
    ∧ defaultParse JSVal.undef = JSVal.null
    ∧ (∀ s : String, defaultParse (JSVal.str s) = JSVal.str s)
    ∧ (∀ xs : List String, defaultParse (JSVal.arr xs) = JSVal.arr xs) :=
  ⟨fun _ _ => rfl, rfl, fun _ => rfl, fun _ => rfl⟩

/-- C8: every setter invocation, single-key or multi-key, makes exactly one
call to the navigation service — one push or one replace, never both and
never more than one — whatever the update value, options, or history mode. -/
theorem setter_single_navigation_call (key : String) (parse serialize : JSVal → JSVal)
    (u : StateUpdater) (keys : KeyMap) (us : StatesUpdater)
    (hookH : Option HistoryOptions) (opts : Option SetQueryStateOptions) (t : JSVal) :
    (useQueryStateUpdate key hookH parse serialize u opts t).length = 1
    ∧ (useQueryStatesUpdate keys hookH us opts t).length = 1 := by
  constructor
  · simp only [useQueryStateUpdate]
    split <;> rfl
  · simp only [useQueryStatesUpdate]
    split <;> rfl

/-- C9: the serialized patch of the multi-key setter contains only KeyMap
keys: a key outside the KeyMap never appears in the serialized object (so a
direct-value patch omits it entirely, and a functional patch leaves its raw
value untouched). -/
theorem non_keymap_keys_dropped (keys : KeyMap) (k : String)
    (h : containsKey keys k = false) :
    (∀ vals, getEntry (serializeAndRemoveUndefined vals keys) k = none)
    ∧ (∀ vals, statesQueryUpdater keys (StatesUpdater.value vals)
        = QueryUpdater.obj (serializeAndRemoveUndefined vals keys))
    ∧ (∀ (u : List (String × JSVal) → List (String × JSVal)) (prevObj : RawDict),
        getKey (applyPatch (statesQueryUpdater keys (StatesUpdater.func u)) prevObj) k
          = getKey prevObj k) := by
  refine ⟨fun vals => getEntry_serializeAndRemoveUndefined_none vals keys k h,
          fun vals => rfl, fun u prevObj => ?_⟩
  have hnone :=
    getEntry_serializeAndRemoveUndefined_none (u (parseObject prevObj keys)) keys k h
  have hsp := getKey_spread prevObj
    (serializeAndRemoveUndefined (u (parseObject prevObj keys)) keys)
    (nodupKeys_serializeAndRemoveUndefined _ keys) k
  calc getKey (applyPatch (statesQueryUpdater keys (StatesUpdater.func u)) prevObj) k
      = getKey (spread prevObj
          (serializeAndRemoveUndefined (u (parseObject prevObj keys)) keys)) k := rfl
    _ = (getEntry (serializeAndRemoveUndefined (u (parseObject prevObj keys)) keys) k).getD
          (getKey prevObj k) := hsp
    _ = getKey prevObj k := by rw [hnone]; rfl

/-- Witness for C9: with KeyMap containing only key a, an update mentioning
only key b leaves no entry for b in the serialized patch, and the functional
patch keeps the previous raw value of b. -/
theorem non_keymap_keys_dropped_witness :
    getEntry (serializeAndRemoveUndefined [("b", JSVal.str "x")] [("a", intEntry)]) "b"
      = none
    ∧ getKey (applyPatch (statesQueryUpdater [("a", intEntry)]
        (StatesUpdater.func (fun _ => [("b", JSVal.str "x")]))) [("b", JSVal.str "old")]) "b"
      = getKey [("b", JSVal.str "old")] "b" := by
  have h := non_keymap_keys_dropped [("a", intEntry)] "b" rfl
  exact ⟨h.1 [("b", JSVal.str "x")],
         h.2.2 (fun _ => [("b", JSVal.str "x")]) [("b", JSVal.str "old")]⟩

/-- C10: a single-key direct-value update always produces a patch object that
contains the key mapped to the serialized value, even when that serialized
value is undefined — so preserve-on-undefined is a property of the
functional branch only: a direct value serializing to undefined yields the
patch object with the key mapped to undefined, while a functional update
returning the same value leaves the dictionary unchanged. -/
theorem direct_value_patch_contains_key (key : String)
    (parse serialize : JSVal → JSVal) (v : JSVal) (d : RawDict)
    (h : serialize v = JSVal.undef) :
    singleQueryUpdater key parse serialize (StateUpdater.value v)
      = QueryUpdater.obj [(key, JSVal.undef)]
    ∧ applyPatch (singleQueryUpdater key parse serialize
        (StateUpdater.func (fun _ => v))) d = d := by
  constructor
  · rw [show singleQueryUpdater key parse serialize (StateUpdater.value v)
        = QueryUpdater.obj [(key, serialize v)] from rfl, h]
  · simp [applyPatch, singleQueryUpdater, h, JSVal.isUndef]

/-- Witness for C10: a serializer that always returns undefined gives the
direct-value patch with the key present and mapped to undefined, while the
functional form preserves the dictionary. -/
theorem direct_value_patch_contains_key_witness :
    singleQueryUpdater "val" defaultParse (fun _ => JSVal.undef)
      (StateUpdater.value JSVal.null) = QueryUpdater.obj [("val", JSVal.undef)]
    ∧ applyPatch (singleQueryUpdater "val" defaultParse (fun _ => JSVal.undef)
        (StateUpdater.func (fun _ => JSVal.null))) [("val", JSVal.str "1")]
      = [("val", JSVal.str "1")] :=
  direct_value_patch_contains_key "val" defaultParse (fun _ => JSVal.undef)
    JSVal.null [("val", JSVal.str "1")] rfl
